import Mathlib

/-!
A shallow embedding in Lean 4 of the core logic of an Android QA agent
(`main.py`): UI-dump query functions, the agent's persistent memory, the
step resolver (`Executor.execute_step`), and the `run_test_case` control
loop, together with theorems settling the specification claims.

External collaborators (the device, the XML library, the JSON library and
the vision model) are modelled as inputs: a UI dump is a list of parsed
nodes in document order, and the vision model's reply is a string plus an
abstract JSON-parse oracle.  All repository-side string processing
(lowercasing, stripping, the regular expressions used for bounds and
quoted-text extraction) is embedded directly.
-/

namespace QAgent

/-! ### Python string primitives -/

/-- Python's `\s` / `str.strip()` whitespace class (ASCII part). -/
def isPySpace (c : Char) : Bool :=
  c == ' ' || c == '\t' || c == '\n' || c == '\r' || c == '\x0b' || c == '\x0c'

/-- Exact list-prefix test. -/
def beginsWith : List Char → List Char → Bool
  | [], _ => true
  | _ :: _, [] => false
  | p :: ps, c :: cs => p == c && beginsWith ps cs

/-- Case-insensitive prefix test; the pattern is given in lowercase. -/
def beginsWithCI : List Char → List Char → Bool
  | [], _ => true
  | _ :: _, [] => false
  | p :: ps, c :: cs => p == c.toLower && beginsWithCI ps cs

/-- Substring test on character lists (Python's `needle in hay`). -/
def listHasSub (needle : List Char) : List Char → Bool
  | [] => needle.isEmpty
  | c :: rest => beginsWith needle (c :: rest) || listHasSub needle rest

/-- Python's `needle in hay` on strings (exact case). -/
def strContains (hay needle : String) : Bool :=
  listHasSub needle.toList hay.toList

/-- Python's `str.lower()` (ASCII). -/
def lowerStr (s : String) : String :=
  String.mk (s.toList.map Char.toLower)

/-- Python's `str.strip(chars)`: drop characters satisfying `isC` from both ends. -/
def pyStrip (isC : Char → Bool) (s : String) : String :=
  String.mk (((s.toList.dropWhile isC).reverse.dropWhile isC).reverse)

/-- Python's `str.strip()` with no argument. -/
def stripWs (s : String) : String := pyStrip isPySpace s

/-- Python's `str.split()` with no argument: split on whitespace runs. -/
def splitWsAux : List Char → List Char → List String
  | [], acc => if acc.isEmpty then [] else [String.mk acc.reverse]
  | c :: rest, acc =>
    if isPySpace c then
      if acc.isEmpty then splitWsAux rest [] else String.mk acc.reverse :: splitWsAux rest []
    else splitWsAux rest (c :: acc)

def splitWords (s : String) : List String := splitWsAux s.toList []

/-- One pass of Python's `str.replace(old, new)` (all non-overlapping
occurrences, left to right); `fuel` bounds the recursion and is
instantiated with the length of the subject string. -/
def replaceFuel (old new : List Char) : Nat → List Char → List Char
  | 0, s => s
  | _ + 1, [] => []
  | fuel + 1, c :: rest =>
    if !old.isEmpty && beginsWith old (c :: rest) then
      new ++ replaceFuel old new fuel (List.drop old.length (c :: rest))
    else c :: replaceFuel old new fuel rest

/-- Python's `s.replace(old, new)`. -/
def strReplace (s old new : String) : String :=
  String.mk (replaceFuel old.toList new.toList s.toList.length s.toList)

/-- First `some` produced by `f` over a list, in order (models Python's
`for`-loop-with-`return` scan pattern). -/
def firstSome (f : α → Option β) : List α → Option β
  | [] => none
  | a :: l =>
    match f a with
    | some b => some b
    | none => firstSome f l

/-- Python's `l[-n:]`. -/
def takeLast (n : Nat) (l : List α) : List α := l.drop (l.length - n)

/-- Python's `//` floor division on ints. -/
def pydiv (a b : Int) : Int := Int.fdiv a b

/-! ### The bounds regex `\[(\d+),(\d+)\]\[(\d+),(\d+)\]` (used with `re.match`,
i.e. anchored at the start only; trailing characters are allowed). -/

def natOfDigits (ds : List Char) : Nat :=
  ds.foldl (fun n c => n * 10 + (c.toNat - 48)) 0

/-- Parse `[d+,d+]`, returning the two numbers and the remaining characters. -/
def parsePair (l : List Char) : Option (Nat × Nat × List Char) :=
  match l with
  | '[' :: r1 =>
    let d1 := r1.takeWhile Char.isDigit
    let r2 := r1.dropWhile Char.isDigit
    if d1.isEmpty then none else
    match r2 with
    | ',' :: r3 =>
      let d2 := r3.takeWhile Char.isDigit
      let r4 := r3.dropWhile Char.isDigit
      if d2.isEmpty then none else
      match r4 with
      | ']' :: r5 => some (natOfDigits d1, natOfDigits d2, r5)
      | _ => none
    | _ => none
  | _ => none

/-- `re.match(r"\[(\d+),(\d+)\]\[(\d+),(\d+)\]", s)`: the four captured
integers, or `none` when the string does not start with the pattern. -/
def parseBounds (s : String) : Option (Int × Int × Int × Int) :=
  match parsePair s.toList with
  | some (x1, y1, rest) =>
    match parsePair rest with
    | some (x2, y2, _) => some (x1, y1, x2, y2)
    | none => none
  | none => none

/-! ### UI nodes (one parsed element of the `uiautomator` XML dump) -/

/-- One node of the UI hierarchy; each field is the corresponding XML
attribute (`none` when the attribute is absent). -/
structure UINode where
  text : Option String := none
  content_desc : Option String := none
  className : Option String := none
  resource_id : Option String := none
  clickable : Option String := none
  checkable : Option String := none
  bounds : Option String := none
deriving DecidableEq

/-- The `bounds` attribute of a node, parsed; `none` when the attribute is
missing, empty, or malformed (such nodes are skipped by every scan). -/
def nodeBounds (n : UINode) : Option (Int × Int × Int × Int) :=
  match n.bounds with
  | none => none
  | some bs => if bs == "" then none else parseBounds bs

/-! ### ADBTools query functions over a parsed dump -/

/-- The match predicate of `find_bounds_by_text`: case-insensitive substring
of `text + " " + content-desc`. -/
def fbtMatches (needle : String) (n : UINode) : Bool :=
  strContains (lowerStr ((n.text.getD "") ++ " " ++ (n.content_desc.getD ""))) (lowerStr needle)

/-- `ADBTools.find_bounds_by_text`: first node (document order) whose text or
content-desc contains the needle and whose bounds parse; nodes with missing
or malformed bounds are skipped. -/
def find_bounds_by_text (nodes : List UINode) (needle : String) : Option (Int × Int × Int × Int) :=
  firstSome (fun n => if fbtMatches needle n then nodeBounds n else none) nodes

def exactTextMatch (kw : String) (n : UINode) : Bool :=
  lowerStr (stripWs (n.text.getD "")) == lowerStr kw

def exactDescMatch (kw : String) (n : UINode) : Bool :=
  lowerStr (stripWs (n.content_desc.getD "")) == lowerStr kw

def subTextMatch (kw : String) (n : UINode) : Bool :=
  strContains (lowerStr (stripWs (n.text.getD ""))) (lowerStr kw)

def subDescMatch (kw : String) (n : UINode) : Bool :=
  strContains (lowerStr (n.content_desc.getD "")) (lowerStr kw)

/-- `ADBTools.find_bounds_by_keywords`: four passes in strict priority order
(exact text, exact content-desc, substring text, substring content-desc),
each pass trying every keyword in order over the whole dump. -/
def find_bounds_by_keywords (nodes : List UINode) (keywords : List String) :
    Option (Int × Int × Int × Int) :=
  match firstSome (fun kw =>
      firstSome (fun n => if exactTextMatch kw n then nodeBounds n else none) nodes) keywords with
  | some b => some b
  | none =>
  match firstSome (fun kw =>
      firstSome (fun n => if exactDescMatch kw n then nodeBounds n else none) nodes) keywords with
  | some b => some b
  | none =>
  match firstSome (fun kw =>
      firstSome (fun n => if subTextMatch kw n then nodeBounds n else none) nodes) keywords with
  | some b => some b
  | none =>
    firstSome (fun kw =>
      firstSome (fun n => if subDescMatch kw n then nodeBounds n else none) nodes) keywords

/-- "Button class or clickable" test shared by `find_button_by_text`. -/
def isButtonNode (n : UINode) : Bool :=
  strContains (n.className.getD "") "Button" || (n.clickable.getD "") == "true"

/-- `ADBTools.find_button_by_text`: exact-text pass over button/clickable
nodes, then a substring pass under the same restriction. -/
def find_button_by_text (nodes : List UINode) (button_text : String) :
    Option (Int × Int × Int × Int) :=
  let btl := lowerStr button_text
  match firstSome (fun n =>
      if isButtonNode n && lowerStr (stripWs (n.text.getD "")) == btl then nodeBounds n
      else none) nodes with
  | some b => some b
  | none =>
    firstSome (fun n =>
      if isButtonNode n && strContains (lowerStr (stripWs (n.text.getD ""))) btl then nodeBounds n
      else none) nodes

def settings_patterns : List String :=
  ["settings", "gear", "cog", "preferences", "options", "config", "open settings"]

/-- `ADBTools.find_settings_icon`: content-desc pattern pass over
clickable/button/image nodes, then a `"settings"`-in-text pass. -/
def find_settings_icon (nodes : List UINode) : Option (Int × Int × Int × Int) :=
  match firstSome (fun n =>
      let cd := lowerStr (n.content_desc.getD "")
      let is_clickable := (n.clickable.getD "") == "true"
        || strContains (n.className.getD "") "Button"
        || strContains (n.className.getD "") "Image"
      if (n.bounds.getD "") != "" && is_clickable
          && settings_patterns.any (fun p => strContains cd p) then
        nodeBounds n
      else none) nodes with
  | some b => some b
  | none =>
    firstSome (fun n =>
      let t := lowerStr (n.text.getD "")
      if (n.bounds.getD "") != "" && ((n.clickable.getD "") == "true" || t != "")
          && strContains t "settings" then
        nodeBounds n
      else none) nodes

/-- `ADBTools.find_first_edit_text`. -/
def find_first_edit_text (nodes : List UINode) : Option (Int × Int × Int × Int) :=
  firstSome (fun n =>
    if strContains (n.className.getD "") "EditText" && (n.bounds.getD "") != "" then nodeBounds n
    else none) nodes

def isToggleNode (n : UINode) : Bool :=
  strContains (n.className.getD "") "Switch" || strContains (n.className.getD "") "Toggle"
    || strContains (n.className.getD "") "Check" || (n.checkable.getD "") == "true"

/-- `ADBTools.find_toggle_or_switch`: toggles by class/checkable flag, with an
optional label match, else any toggle within 200px vertically of the label. -/
def find_toggle_or_switch (nodes : List UINode) (label_text : Option String) :
    Option (Int × Int × Int × Int) :=
  match firstSome (fun n =>
      if isToggleNode n && (n.bounds.getD "") != "" then
        match nodeBounds n with
        | some b =>
          match label_text with
          | none => some b
          | some lt =>
            if strContains (lowerStr (n.text.getD "")) (lowerStr lt) then some b else none
        | none => none
      else none) nodes with
  | some b => some b
  | none =>
    match label_text with
    | none => none
    | some lt =>
      match find_bounds_by_text nodes lt with
      | none => none
      | some (_, ly, _, _) =>
        firstSome (fun n =>
          if isToggleNode n && (n.bounds.getD "") != "" then
            match nodeBounds n with
            | some (x1, y1, x2, y2) =>
              if (y1 - ly).natAbs < 200 then some (x1, y1, x2, y2) else none
            | none => none
          else none) nodes

/-- One record of `ADBTools.dump_all_clickable_elements`. -/
structure ClickEl where
  className : String
  text : String
  content_desc : String
  resource_id : String
  bounds : String
deriving DecidableEq

/-- `ADBTools.dump_all_clickable_elements`: all nodes with
`clickable == "true"` and a non-empty bounds attribute. -/
def dump_all_clickable_elements (nodes : List UINode) : List ClickEl :=
  (nodes.filter (fun n => (n.clickable.getD "") == "true" && (n.bounds.getD "") != "")).map
    (fun n =>
      ⟨n.className.getD "", stripWs (n.text.getD ""), stripWs (n.content_desc.getD ""),
        stripWs (n.resource_id.getD ""), n.bounds.getD ""⟩)

/-! ### The quoted-text regexes

`re.findall(r"['\"]([^'\"]+)['\"]", s)` (either quote opens or closes) and
`re.findall(r"'([^']+)'", s)` (single quotes only): non-overlapping
left-to-right scan; a candidate opening quote with empty content fails and
the scan resumes at the very next character. -/

def qScan (isQ : Char → Bool) : List Char → Option (List Char) → List String
  | [], _ => []
  | c :: rest, none =>
    if isQ c then qScan isQ rest (some []) else qScan isQ rest none
  | c :: rest, some acc =>
    if isQ c then
      match acc with
      | [] => qScan isQ rest (some [])
      | _ :: _ => String.mk acc.reverse :: qScan isQ rest none
    else qScan isQ rest (some (c :: acc))

def isQuoteEither (c : Char) : Bool := c == '\'' || c == '"'

def isQuoteSingle (c : Char) : Bool := c == '\''

/-- `re.findall(r"['\"]([^'\"]+)['\"]", s)`. -/
def findallQuotedEither (s : String) : List String := qScan isQuoteEither s.toList none

/-- `re.findall(r"'([^']+)'", s)`. -/
def findallQuotedSingle (s : String) : List String := qScan isQuoteSingle s.toList none

/-! ### The tap-target regex

`re.search(r"tap\s+(?:the\s+)?(.+?)(?:\s+button|\s+icon|\s+link|\s+option|\s*$)",
s, re.IGNORECASE)`: leftmost match wins; `\s+` and `the\s+` are greedy with
backtracking; the capture group is lazy; the trailing alternation tries the
four literal suffixes (which do not need to reach the end of the string) and
finally `\s*$`. -/

def tapSuffixWords : List (List Char) :=
  ["button".toList, "icon".toList, "link".toList, "option".toList]

/-- Does `(?:\s+button|\s+icon|\s+link|\s+option|\s*$)` match at the start of
`rest`?  (`\s+word` cannot backtrack usefully since no suffix word starts
with whitespace.) -/
def tapSuffixOk (rest : List Char) : Bool :=
  match rest with
  | [] => true
  | c :: _ =>
    (isPySpace c && tapSuffixWords.any (fun w => beginsWithCI w (rest.dropWhile isPySpace)))
      || rest.all isPySpace

/-- Lazy capture `(.+?)` followed by the suffix alternation: grow the capture
one character at a time, returning the first (shortest) success. -/
def lazyCaptureAux (acc : List Char) : List Char → Option String
  | [] => if tapSuffixOk [] then some (String.mk acc.reverse) else none
  | c :: rest =>
    if tapSuffixOk (c :: rest) then some (String.mk acc.reverse)
    else lazyCaptureAux (c :: acc) rest

def lazyCaptureStart : List Char → Option String
  | [] => none
  | c :: rest => lazyCaptureAux [c] rest

/-- Backtrack the whitespace of `the\s+` from `v` copies down to one. -/
def tryTheWs (afterThe : List Char) : Nat → Option String
  | 0 => none
  | j + 1 =>
    match lazyCaptureStart (afterThe.drop (j + 1)) with
    | some g => some g
    | none => tryTheWs afterThe j

/-- Try the optional `(?:the\s+)?` group (presence preferred) at `p`. -/
def tryThe (p : List Char) : Option String :=
  match (if beginsWithCI ['t', 'h', 'e'] p then
      tryTheWs (p.drop 3) ((p.drop 3).takeWhile isPySpace).length
    else none) with
  | some g => some g
  | none => lazyCaptureStart p

/-- Backtrack the mandatory `\s+` after `tap` from `k` copies down to one. -/
def tapTryWs (rest : List Char) : Nat → Option String
  | 0 => none
  | k + 1 =>
    match tryThe (rest.drop (k + 1)) with
    | some g => some g
    | none => tapTryWs rest k

/-- Attempt a match whose `tap` literal starts exactly here. -/
def tapMatchHere (l : List Char) : Option String :=
  if beginsWithCI ['t', 'a', 'p'] l then
    let rest := l.drop 3
    tapTryWs rest (rest.takeWhile isPySpace).length
  else none

/-- Scan for the leftmost position at which the whole pattern matches. -/
def tapSearchList : List Char → Option String
  | [] => none
  | c :: rest =>
    match tapMatchHere (c :: rest) with
    | some g => some g
    | none => tapSearchList rest

/-- Group 1 of `re.search(r"tap\s+(?:the\s+)?(.+?)(?:\s+button|...)", s, re.I)`. -/
def tapTargetSearch (s : String) : Option String := tapSearchList s.toList

/-! ### `extract_target_text` -/

def extractStopWords : List String :=
  ["tap", "the", "button", "icon", "click", "press", "labeled"]

def isWordTrimChar (c : Char) : Bool :=
  c == '\'' || c == '"' || c == '.' || c == ',' || c == '!' || c == '?'

/-- `extract_target_text(step_description)`: quoted strings, then the
tap-regex capture (stripped of whitespace and quotes), then each word of
length > 3 that is not a stop word; duplicates are not re-added. -/
def extract_target_text (step_description : String) : List String :=
  let candidates := findallQuotedEither step_description
  let candidates :=
    match tapTargetSearch step_description with
    | some g =>
      let text := pyStrip isQuoteEither (stripWs g)
      if text != "" && !candidates.contains text then candidates ++ [text] else candidates
    | none => candidates
  (splitWords step_description).foldl (fun cands word =>
    let clean := pyStrip isWordTrimChar word
    if 3 < clean.toList.length && !extractStopWords.contains (lowerStr clean)
        && !cands.contains clean then
      cands ++ [clean]
    else cands) candidates

/-! ### The element-detection cascade of `run_test_case`

The block between planning and execution that computes `target_bounds`
from the UI dump: the settings debug "potential gear" scan, then detectors
A (settings icon), B (body area), C (input field), D (permission button),
E (toggle), F (button/text/keyword match), and the EditText fallback for
`type` steps. -/

/-- The settings debug scan: the last clickable element with empty text in
the header area (`y2 < 300`, `x1 > 700`, `y1 < 260`) is kept as a potential
gear icon. -/
def potentialGear (nodes : List UINode) : Option (Int × Int × Int × Int) :=
  (dump_all_clickable_elements nodes).foldl (fun acc el =>
    match parseBounds el.bounds with
    | some (x1, y1, x2, y2) =>
      if y2 < 300 && el.text == "" && 700 < x1 && y1 < 260 then some (x1, y1, x2, y2) else acc
    | none => acc) none

def input_keywords : List String :=
  ["input", "field", "textbox", "text box", "text field", "type in", "enter text", "vault name"]

def permission_keywords : List String :=
  ["allow", "deny", "permit", "grant", "ok", "cancel", "accept", "decline"]

def permission_buttons : List String := ["Allow", "ALLOW", "OK", "Deny", "Cancel", "Accept"]

/-- The `target_bounds` computed by `run_test_case`'s element-detection
cascade for one step. -/
def detect_target_bounds (nodes : List UINode) (screen_size : Int × Int) (step : String) :
    Option (Int × Int × Int × Int) :=
  let step_lower := lowerStr step
  let is_body_action := strContains step_lower "body" || strContains step_lower "content area"
  let is_settings_action :=
    ["settings", "gear", "cog", "preferences"].any (fun kw => strContains step_lower kw)
  let tb : Option (Int × Int × Int × Int) :=
    if is_settings_action then potentialGear nodes else none
  let tb :=
    if is_settings_action && strContains step_lower "tap" then
      match find_settings_icon nodes with
      | some b => some b
      | none => tb
    else tb
  let is_input_action := !is_body_action && !is_settings_action
    && input_keywords.any (fun kw => strContains step_lower kw)
  let is_permission_action := permission_keywords.any (fun kw => strContains step_lower kw)
  let tb :=
    if tb.isNone && is_body_action && strContains step_lower "tap" then
      let body_x := pydiv screen_size.1 2
      let body_y := pydiv (2 * screen_size.2) 5
      some (body_x - 50, body_y - 50, body_x + 50, body_y + 50)
    else tb
  let tb :=
    if tb.isNone && is_input_action then
      match find_first_edit_text nodes with
      | some b => some b
      | none => tb
    else tb
  let tb :=
    if tb.isNone && is_permission_action then
      match firstSome (fun bt =>
          if strContains step_lower (lowerStr bt) then find_button_by_text nodes bt else none)
          permission_buttons with
      | some b => some b
      | none => tb
    else tb
  let tb :=
    if tb.isNone && (strContains step_lower "toggle" || strContains step_lower "switch"
        || strContains step_lower "enable") then
      match find_toggle_or_switch nodes none with
      | some b => some b
      | none => tb
    else tb
  let tb :=
    if tb.isNone && strContains step_lower "tap" then
      let candidates := extract_target_text step
      let tb2 := firstSome (fun c => find_button_by_text nodes c) candidates
      let tb2 :=
        match tb2 with
        | some b => some b
        | none => firstSome (fun c => find_bounds_by_text nodes c) candidates
      match tb2 with
      | some b => some b
      | none => if !candidates.isEmpty then find_bounds_by_keywords nodes candidates else none
    else tb
  if tb.isNone && strContains step_lower "type" && !is_body_action then
    match find_first_edit_text nodes with
    | some b => some b
    | none => tb
  else tb

/-! ### JSON values (the abstract result of `json.loads`) -/

/-- A parsed JSON value.  Numbers are modelled as rationals.  Action
dictionaries built by the fast paths use this type as well, so
`execute_step` returns a `JVal`. -/
inductive JVal where
  | jnull
  | jbool (b : Bool)
  | jnum (q : Rat)
  | jstr (s : String)
  | jarr (xs : List JVal)
  | jobj (fields : List (String × JVal))

def tapObj (x y : Int) : JVal :=
  .jobj [("action", .jstr "tap"), ("x", .jnum (x : Rat)), ("y", .jnum (y : Rat))]

def typeObj (t : String) : JVal :=
  .jobj [("action", .jstr "type"), ("text", .jstr t)]

def waitObj (s : Rat) : JVal :=
  .jobj [("action", .jstr "wait"), ("seconds", .jnum s)]

def keyObj (k : Rat) : JVal :=
  .jobj [("action", .jstr "key"), ("keycode", .jnum k)]

def swipeObj (sx sy ex ey : Rat) : JVal :=
  .jobj [("action", .jstr "swipe"), ("start_x", .jnum sx), ("start_y", .jnum sy),
    ("end_x", .jnum ex), ("end_y", .jnum ey)]

/-- `isinstance(v, dict) and "action" in v`. -/
def hasActionKey (v : JVal) : Bool :=
  match v with
  | .jobj fields => fields.any (fun p => p.1 == "action")
  | _ => false

/-! ### AgentMemory

Python dicts preserve insertion order, so each dict is an association list:
updating an existing key replaces its value in place, a new key is appended,
and iteration follows the list. -/

def dictHas (l : List (String × α)) (k : String) : Bool := l.any (fun p => p.1 == k)

def dictSet (l : List (String × α)) (k : String) (v : α) : List (String × α) :=
  if dictHas l k then l.map (fun p => if p.1 == k then (k, v) else p) else l ++ [(k, v)]

def dictDel (l : List (String × α)) (k : String) : List (String × α) :=
  l.filter (fun p => !(p.1 == k))

def dictGet (l : List (String × α)) (k : String) : Option α :=
  firstSome (fun p => if p.1 == k then some p.2 else none) l

/-- One entry of `element_locations`. -/
structure LocEntry where
  x : Int
  y : Int
  context : String
  found_at : String
deriving DecidableEq

/-- One entry of `successful_actions`. -/
structure SAct where
  action : String
  context : String
  time : String
deriving DecidableEq

/-- One entry of `failed_actions`. -/
structure FAct where
  action : String
  context : String
  reason : String
  time : String
deriving DecidableEq

/-- `AgentMemory.data`. -/
structure MemData where
  element_locations : List (String × LocEntry) := []
  successful_actions : List SAct := []
  failed_actions : List FAct := []
  app_knowledge : List (String × JVal) := []
  session_context : List (String × JVal) := []

/-- The agent memory together with the state of its backing JSON file:
`file = some d` means the file currently holds (a faithful serialisation
of) `d`; `AgentMemory.save` overwrites the file with the current data. -/
structure MemState where
  data : MemData
  file : Option MemData

def emptyMemData : MemData := {}

/-- `AgentMemory.remember_element_location` (`now` is the formatted time). -/
def remember_element_location (s : MemState) (element_name : String) (x y : Int)
    (context now : String) : MemState :=
  let key := stripWs (lowerStr element_name)
  let d := { s.data with
    element_locations := dictSet s.data.element_locations key ⟨x, y, context, now⟩ }
  ⟨d, some d⟩

/-- `AgentMemory.recall_element_location`: two-sided substring match of the
normalised query against every stored key, in insertion order. -/
def recall_element_location (d : MemData) (element_name : String) : Option (Int × Int) :=
  let key := stripWs (lowerStr element_name)
  firstSome (fun p =>
    if strContains p.1 key || strContains key p.1 then some (p.2.x, p.2.y) else none)
    d.element_locations

/-- `AgentMemory.remember_successful_action`: append, keep the last 100, save. -/
def remember_successful_action (s : MemState) (action screen_context now : String) : MemState :=
  let d := { s.data with
    successful_actions := takeLast 100 (s.data.successful_actions ++ [⟨action, screen_context, now⟩]) }
  ⟨d, some d⟩

/-- `AgentMemory.remember_failed_action`: append, keep the last 50; if the
action mentions "gear" or "settings" (case-insensitive) evict the memorised
"gear" and "settings" locations; save. -/
def remember_failed_action (s : MemState) (action screen_context reason now : String) : MemState :=
  let d := { s.data with
    failed_actions := takeLast 50 (s.data.failed_actions ++ [⟨action, screen_context, reason, now⟩]) }
  let d :=
    if strContains (lowerStr action) "gear" || strContains (lowerStr action) "settings" then
      { d with element_locations := dictDel (dictDel d.element_locations "gear") "settings" }
    else d
  ⟨d, some d⟩

/-- `AgentMemory.forget_element`: delete and save only when the key exists. -/
def forget_element (s : MemState) (element_name : String) : MemState :=
  let key := stripWs (lowerStr element_name)
  if dictHas s.data.element_locations key then
    let d := { s.data with element_locations := dictDel s.data.element_locations key }
    ⟨d, some d⟩
  else s

/-- `AgentMemory.set_session_context`: mutates the in-memory session map
only (the method body contains no `save()` call). -/
def set_session_context (s : MemState) (key : String) (value : JVal) : MemState :=
  ⟨{ s.data with session_context := dictSet s.data.session_context key value }, s.file⟩

/-- `AgentMemory.get_session_context`. -/
def get_session_context (d : MemData) (key : String) : Option JVal :=
  dictGet d.session_context key

/-- `AgentMemory.clear_session`: wipes the session map only (no `save()`). -/
def clear_session (s : MemState) : MemState :=
  ⟨{ s.data with session_context := [] }, s.file⟩

/-! ### `Executor.execute_step`

Inputs beyond the step text: the memory data, the screen size, the optional
`target_hint` bounds, the raw vision-model response (a string) and the
abstract `json.loads` oracle `jsonParse`. -/

def memory_keywords : List String := ["gear", "settings", "menu", "back", "expand"]

/-- The memorised-location fast path: for a hint-less `tap` step, the first
keyword present in the step whose location is recalled yields a tap. -/
def memoryPath (mem : MemData) (step_lower : String)
    (target_hint : Option (Int × Int × Int × Int)) : Option JVal :=
  if target_hint.isNone && strContains step_lower "tap" then
    firstSome (fun kw =>
      if strContains step_lower kw then
        match recall_element_location mem kw with
        | some (x, y) => some (tapObj x y)
        | none => none
      else none) memory_keywords
  else none

/-- The key-press fast paths (arrow keys, then enter/return). -/
def keyPath (step_lower : String) : Option JVal :=
  match (if strContains step_lower "press" && strContains step_lower "arrow" then
      if strContains step_lower "down" then some (keyObj 20)
      else if strContains step_lower "up" then some (keyObj 19)
      else if strContains step_lower "left" then some (keyObj 21)
      else if strContains step_lower "right" then some (keyObj 22)
      else none
    else none) with
  | some a => some a
  | none =>
    if strContains step_lower "press enter" || strContains step_lower "press return" then
      some (keyObj 66)
    else none

/-- The swipe fast path: vertical swipe at x = 250 between 70% and 30% of
the screen height («swipe up» drags from 70% to 30%). -/
def swipePath (screen_size : Int × Int) (step_lower : String) : Option JVal :=
  if strContains step_lower "swipe" || strContains step_lower "scroll" then
    if strContains step_lower "up" || strContains step_lower "down" then
      if strContains step_lower "up" then
        some (swipeObj 250 ((screen_size.2 : Rat) * (7 / 10)) 250 ((screen_size.2 : Rat) * (3 / 10)))
      else
        some (swipeObj 250 ((screen_size.2 : Rat) * (3 / 10)) 250 ((screen_size.2 : Rat) * (7 / 10)))
    else none
  else none

/-- The structured-hint fast path: tap the centroid of the hint bounds. -/
def hintPath (target_hint : Option (Int × Int × Int × Int)) (step_lower : String) : Option JVal :=
  match target_hint with
  | some (x1, y1, x2, y2) =>
    if strContains step_lower "tap" then
      some (tapObj (pydiv (x1 + x2) 2) (pydiv (y1 + y2) 2))
    else none
  | none => none

/-- The quoted-text fast path for `type` steps. -/
def typePath (step_lower step_description : String) : Option JVal :=
  if strContains step_lower "type" then
    match findallQuotedEither step_description with
    | t :: _ => some (typeObj t)
    | [] => none
  else none

/-- Strip code-fence markup: `response.replace("```json", "").replace("```", "").strip()`. -/
def cleanResp (response : String) : String :=
  stripWs (strReplace (strReplace response "```json" "") "```" "")

/-- The vision fallback: parse the (cleaned) response as JSON; on parse
failure recover a single-quoted string for a `type` step or wait 1s; a JSON
array is replaced by its first element (or a wait if empty); any parsed
value that is not a dict containing "action" becomes a 1-second wait. -/
def visionPath (jsonParse : String → Option JVal) (step_lower step_description response : String) :
    JVal :=
  match jsonParse (cleanResp response) with
  | none =>
    let quoted := findallQuotedSingle step_description
    if strContains step_lower "type" && !quoted.isEmpty then
      match quoted with
      | t :: _ => typeObj t
      | [] => waitObj 1
    else waitObj 1
  | some a0 =>
    let a1 :=
      match a0 with
      | .jarr xs =>
        match xs with
        | x :: _ => x
        | [] => waitObj 1
      | v => v
    if hasActionKey a1 then a1 else waitObj 1

/-- `Executor.execute_step`. -/
def execute_step (mem : MemData) (jsonParse : String → Option JVal) (screen_size : Int × Int)
    (step_description : String) (target_hint : Option (Int × Int × Int × Int))
    (response : String) : JVal :=
  let step_lower := lowerStr step_description
  match memoryPath mem step_lower target_hint with
  | some a => a
  | none =>
  match keyPath step_lower with
  | some a => a
  | none =>
  match swipePath screen_size step_lower with
  | some a => a
  | none =>
  match hintPath target_hint step_lower with
  | some a => a
  | none =>
  match typePath step_lower step_description with
  | some a => a
  | none => visionPath jsonParse step_lower step_description response

/-! ### The `run_test_case` control loop

One loop iteration consumes the external inputs of that iteration: the
Supervisor's response, the Planner's response, and whether the execution
phase raised (`execThrows`).  The loop's control flow in Python:
`while step_count < max_steps`; Supervisor consulted only once
`step_count >= 3`; `PASS` in the response returns `True`; `FAIL` returns
`False` only when `step_count > 7`; `DONE` in the Planner line breaks;
`FAIL` in the Planner line returns `False`; an execution error breaks;
otherwise `step_count += 1`.  Falling out of the loop (or breaking) returns
`None` — the exhausted outcome, distinct from `False`. -/

/-- The external inputs of one loop iteration. -/
structure IterInput where
  sup : String
  plan : String
  execThrows : Bool
deriving DecidableEq

/-- Continuation decision of one iteration body. -/
inductive BodyRes where
  | ret (r : Option Bool)
  | brk
  | next
deriving DecidableEq

/-- Trace of one iteration body: its continuation, whether
`supervisor.verify_state` was invoked, and whether the Planning phase was
reached. -/
structure BodyTrace where
  res : BodyRes
  consultedSup : Bool
  reachedPlanning : Bool
deriving DecidableEq

/-- The planning-and-execution tail of one iteration body. -/
def planPhase (input : IterInput) (consulted : Bool) : BodyTrace :=
  if strContains input.plan "DONE" then ⟨.brk, consulted, true⟩
  else if strContains input.plan "FAIL" then ⟨.ret (some false), consulted, true⟩
  else if input.execThrows then ⟨.brk, consulted, true⟩
  else ⟨.next, consulted, true⟩

/-- One iteration body of `run_test_case` at step count `step_count`. -/
def loopBody (step_count : Nat) (input : IterInput) : BodyTrace :=
  if 3 ≤ step_count then
    if strContains input.sup "PASS" then ⟨.ret (some true), true, false⟩
    else if strContains input.sup "FAIL" && decide (7 < step_count) then
      ⟨.ret (some false), true, false⟩
    else planPhase input true
  else planPhase input false

/-- `max_steps = 15`. -/
def max_steps : Nat := 15

/-- Result of a whole run: the Python return value (`some true` = passed,
`some false` = failed, `none` = exhausted / broke out), the number of loop
iterations entered, and the step counts at which the Supervisor was
consulted. -/
structure LoopResult where
  result : Option Bool
  iterations : Nat
  consulted : List Nat
deriving DecidableEq

/-- The `while step_count < max_steps` loop; `fuel` starts at `max_steps`
and stays in sync with `max_steps - step_count`. -/
def loopAux (iters : Nat → IterInput) : Nat → Nat → Nat → List Nat → LoopResult
  | 0, _, ic, cs => ⟨none, ic, cs⟩
  | fuel + 1, sc, ic, cs =>
    if sc < max_steps then
      let t := loopBody sc (iters sc)
      let cs2 := if t.consultedSup then cs ++ [sc] else cs
      match t.res with
      | .ret r => ⟨r, ic + 1, cs2⟩
      | .brk => ⟨none, ic + 1, cs2⟩
      | .next => loopAux iters fuel (sc + 1) (ic + 1) cs2
    else ⟨none, ic, cs⟩

/-- `run_test_case`, as a function of the per-iteration external inputs. -/
def run_test_case (iters : Nat → IterInput) : LoopResult :=
  loopAux iters max_steps 0 0 []

/-! ## Shared lemmas -/

theorem firstSome_append (f : α → Option β) (l1 l2 : List α) :
    firstSome f (l1 ++ l2)
      = match firstSome f l1 with
        | some b => some b
        | none => firstSome f l2 := by
  induction l1 with
  | nil => simp [firstSome]
  | cons a l ih =>
    simp only [List.cons_append, firstSome]
    cases f a with
    | some b => rfl
    | none => exact ih

theorem firstSome_eq_none {f : α → Option β} {l : List α} (h : ∀ a ∈ l, f a = none) :
    firstSome f l = none := by
  induction l with
  | nil => rfl
  | cons a l ih =>
    simp only [firstSome]
    rw [h a (List.mem_cons_self a l)]
    exact ih fun x hx => h x (List.mem_cons_of_mem a hx)

theorem firstSome_prop {f : α → Option β} {P : β → Prop}
    (hf : ∀ a b, f a = some b → P b) :
    ∀ {l : List α} {b : β}, firstSome f l = some b → P b := by
  intro l
  induction l with
  | nil => intro b h; exact absurd h (by simp [firstSome])
  | cons a l ih =>
    intro b h
    simp only [firstSome] at h
    cases ha : f a with
    | some b0 => rw [ha] at h; cases h; exact hf a b ha
    | none => rw [ha] at h; exact ih h

theorem takeLast_length_le (n : Nat) (l : List α) : (takeLast n l).length ≤ n := by
  simp only [takeLast, List.length_drop]
  omega

theorem dictGet_eq_none_of_forall {l : List (String × α)} {k : String}
    (h : ∀ p ∈ l, p.1 ≠ k) : dictGet l k = none := by
  refine firstSome_eq_none fun p hp => ?_
  have := h p hp
  simp [this]

theorem mem_dictDel {l : List (String × α)} {k : String} {p : String × α}
    (h : p ∈ dictDel l k) : p ∈ l ∧ p.1 ≠ k := by
  simp only [dictDel, List.mem_filter, Bool.not_eq_true'] at h
  exact ⟨h.1, by simpa using h.2⟩

/-! ## Claim C1 -/

/-- The node of the C1 scenario:
`<node text="Create a vault" class="Button" bounds="[100,200][400,260]" clickable="true"/>`. -/
def createVaultNode : UINode :=
  { text := some "Create a vault", className := some "Button", clickable := some "true",
    bounds := some "[100,200][400,260]" }

/-- **C1.** For a UI dump containing the `Create a vault` button node, resolving
the step `Tap the 'Create a vault' button` extracts the quoted text as the first
candidate, finds the button by the exact-text button pass at bounds
(100,200)-(400,260) — also through the full element-detection cascade — and the
executor taps the centroid (250, 230) of those bounds. -/
theorem c1_tap_create_vault_button :
    extract_target_text "Tap the 'Create a vault' button" = ["Create a vault", "Create", "vault"]
    ∧ find_button_by_text [createVaultNode] "Create a vault" = some (100, 200, 400, 260)
    ∧ detect_target_bounds [createVaultNode] (1080, 2340) "Tap the 'Create a vault' button"
        = some (100, 200, 400, 260)
    ∧ execute_step emptyMemData (fun _ => none) (1080, 2340) "Tap the 'Create a vault' button"
        (some (100, 200, 400, 260)) "" = tapObj 250 230 :=
  ⟨rfl, rfl, rfl, rfl⟩

/-! ## Claims C2 and C9: the control loop -/

theorem planPhase_consultedSup (input : IterInput) (c : Bool) :
    (planPhase input c).consultedSup = c := by
  unfold planPhase
  split
  · rfl
  split
  · rfl
  split <;> rfl

theorem planPhase_reachedPlanning (input : IterInput) (c : Bool) :
    (planPhase input c).reachedPlanning = true := by
  unfold planPhase
  split
  · rfl
  split
  · rfl
  split <;> rfl

/-- When the Supervisor response contains no `PASS` and any `FAIL` comes while
`step_count ≤ 7`, the iteration body falls through to the Planning phase. -/
theorem loopBody_continues (sc : Nat) (input : IterInput)
    (hP : strContains input.sup "PASS" = false)
    (hF : strContains input.sup "FAIL" = true → sc ≤ 7) :
    loopBody sc input = planPhase input (decide (3 ≤ sc)) := by
  unfold loopBody
  by_cases h3 : 3 ≤ sc
  · rw [if_pos h3]
    rw [if_neg (by simp [hP])]
    rw [if_neg ?_]
    · simp [h3]
    · cases hf : strContains input.sup "FAIL" with
      | false => simp
      | true =>
        have h7 : ¬ (7 < sc) := Nat.not_lt.mpr (hF hf)
        simp [h7]
  · rw [if_neg h3]
    simp [h3]

theorem loopBody_consultedSup_imp {sc : Nat} {input : IterInput}
    (h : (loopBody sc input).consultedSup = true) : 3 ≤ sc := by
  by_contra h3
  unfold loopBody at h
  rw [if_neg h3] at h
  rw [planPhase_consultedSup] at h
  exact Bool.false_ne_true h

/-- Core exhaustion lemma: when the Planner never says DONE or FAIL and the
Supervisor never forces a verdict, every run of the loop returns `None` and
enters the body at most `fuel` more times. -/
theorem loopAux_exhausts (iters : Nat → IterInput)
    (hplan : ∀ i, i < max_steps → strContains (iters i).plan "DONE" = false
        ∧ strContains (iters i).plan "FAIL" = false)
    (hsup : ∀ i, i < max_steps → strContains (iters i).sup "PASS" = false
        ∧ (strContains (iters i).sup "FAIL" = true → i ≤ 7)) :
    ∀ fuel sc ic cs, (loopAux iters fuel sc ic cs).result = none
      ∧ (loopAux iters fuel sc ic cs).iterations ≤ ic + fuel := by
  intro fuel
  induction fuel with
  | zero => intro sc ic cs; exact ⟨rfl, Nat.le_refl _⟩
  | succ n ih =>
    intro sc ic cs
    by_cases hsc : sc < max_steps
    · have hp := hplan sc hsc
      have hs := hsup sc hsc
      have hbody : loopBody sc (iters sc) = planPhase (iters sc) (decide (3 ≤ sc)) :=
        loopBody_continues sc (iters sc) hs.1 hs.2
      cases hex : (iters sc).execThrows with
      | true =>
        have hb2 : loopBody sc (iters sc) = ⟨.brk, decide (3 ≤ sc), true⟩ := by
          rw [hbody]
          unfold planPhase
          rw [if_neg (by simp [hp.1]), if_neg (by simp [hp.2]), if_pos hex]
        constructor
        · simp [loopAux, if_pos hsc, hb2]
        · have hit : (loopAux iters (n + 1) sc ic cs).iterations = ic + 1 := by
            simp [loopAux, if_pos hsc, hb2]
          omega
      | false =>
        have hb2 : loopBody sc (iters sc) = ⟨.next, decide (3 ≤ sc), true⟩ := by
          rw [hbody]
          unfold planPhase
          rw [if_neg (by simp [hp.1]), if_neg (by simp [hp.2]), if_neg (by simp [hex])]
        have hkey : loopAux iters (n + 1) sc ic cs
            = loopAux iters n (sc + 1) (ic + 1) (if 3 ≤ sc then cs ++ [sc] else cs) := by
          simp [loopAux, if_pos hsc, hb2]
        rw [hkey]
        have hrec := ih (sc + 1) (ic + 1) (if 3 ≤ sc then cs ++ [sc] else cs)
        exact ⟨hrec.1, by omega⟩
    · constructor
      · simp [loopAux, if_neg hsc]
      · have hit : (loopAux iters (n + 1) sc ic cs).iterations = ic := by
          simp [loopAux, if_neg hsc]
        omega

/-- **C2.** If the Planner never returns a line containing DONE or FAIL and the
Supervisor never reports PASS nor an aborting FAIL (a FAIL at step count > 7),
`run_test_case` executes at most `max_steps = 15` iterations and returns the
exhausted outcome `None`, which is distinct from the failed outcome `False`;
the loop is total, so it never runs forever. -/
theorem c2_exhausted_at_max_steps (iters : Nat → IterInput)
    (hplan : ∀ i, i < max_steps → strContains (iters i).plan "DONE" = false
        ∧ strContains (iters i).plan "FAIL" = false)
    (hsup : ∀ i, i < max_steps → strContains (iters i).sup "PASS" = false
        ∧ (strContains (iters i).sup "FAIL" = true → i ≤ 7)) :
    (run_test_case iters).result = none
    ∧ (run_test_case iters).result ≠ some false
    ∧ (run_test_case iters).iterations ≤ max_steps := by
  have h := loopAux_exhausts iters hplan hsup max_steps 0 0 []
  have h1 : (run_test_case iters).result = none := h.1
  have h2 : (run_test_case iters).iterations ≤ max_steps := by
    have := h.2
    simpa [run_test_case] using this
  refine ⟨h1, ?_, h2⟩
  rw [h1]
  exact fun hc => Option.noConfusion hc

/-- Witness for C2 at a concrete run whose Planner and Supervisor always
answer `Tap the gear icon` and `CONTINUE`. -/
theorem c2_witness :
    (run_test_case (fun _ => ⟨"CONTINUE", "Tap the gear icon", false⟩)).result = none
    ∧ (run_test_case (fun _ => ⟨"CONTINUE", "Tap the gear icon", false⟩)).result ≠ some false
    ∧ (run_test_case (fun _ => ⟨"CONTINUE", "Tap the gear icon", false⟩)).iterations ≤ max_steps :=
  c2_exhausted_at_max_steps _
    (fun _ _ => ⟨by decide, by decide⟩)
    (fun _ _ => ⟨by decide, fun hf => absurd hf (by decide)⟩)

/-- Consulted step counts are always at least 3. -/
theorem loopAux_consulted_ge (iters : Nat → IterInput) :
    ∀ fuel sc ic cs, (∀ x ∈ cs, 3 ≤ x) →
      ∀ x ∈ (loopAux iters fuel sc ic cs).consulted, 3 ≤ x := by
  intro fuel
  induction fuel with
  | zero => intro sc ic cs hcs; exact hcs
  | succ n ih =>
    intro sc ic cs hcs
    by_cases hsc : sc < max_steps
    · have hcs2 : ∀ x ∈ (if (loopBody sc (iters sc)).consultedSup then cs ++ [sc] else cs), 3 ≤ x := by
        intro x hx
        by_cases hcons : (loopBody sc (iters sc)).consultedSup = true
        · rw [if_pos hcons] at hx
          rcases List.mem_append.mp hx with hx | hx
          · exact hcs x hx
          · rw [List.mem_singleton.mp hx]
            exact loopBody_consultedSup_imp hcons
        · rw [if_neg hcons] at hx
          exact hcs x hx
      simp only [loopAux, if_pos hsc]
      cases hres : (loopBody sc (iters sc)).res with
      | ret r => simpa [hres] using hcs2
      | brk => simpa [hres] using hcs2
      | next =>
        intro x hx
        refine ih (sc + 1) (ic + 1) _ hcs2 x ?_
        simpa [hres] using hx
    · simp only [loopAux, if_neg hsc]
      exact hcs

/-- **C9.** Verification gating: the Supervisor is never consulted before three
steps have executed (every consulted step count of any run is ≥ 3, and an
iteration body at step count < 3 does not consult it); at 3 ≤ stepCount ≤ 7 a
FAIL verdict (FAIL present, PASS absent) is non-fatal and the body continues
to the Planning phase; a PASS verdict at stepCount ≥ 3 returns `True`
(Passed); and a FAIL verdict returns `False` (Failed) only at stepCount > 7,
where it does so. -/
theorem c9_verification_gating :
    (∀ iters : Nat → IterInput, ∀ x ∈ (run_test_case iters).consulted, 3 ≤ x)
    ∧ (∀ (sc : Nat) (input : IterInput), sc < 3 → (loopBody sc input).consultedSup = false)
    ∧ (∀ (sc : Nat) (input : IterInput), 3 ≤ sc → sc ≤ 7 →
        strContains input.sup "FAIL" = true → strContains input.sup "PASS" = false →
        (loopBody sc input).consultedSup = true ∧ (loopBody sc input).reachedPlanning = true)
    ∧ (∀ (sc : Nat) (input : IterInput), 3 ≤ sc → strContains input.sup "PASS" = true →
        (loopBody sc input).res = BodyRes.ret (some true))
    ∧ (∀ (sc : Nat) (input : IterInput), 7 < sc →
        strContains input.sup "FAIL" = true → strContains input.sup "PASS" = false →
        (loopBody sc input).res = BodyRes.ret (some false)) := by
  refine ⟨?_, ?_, ?_, ?_, ?_⟩
  · intro iters x hx
    exact loopAux_consulted_ge iters max_steps 0 0 [] (by simp) x hx
  · intro sc input h3
    unfold loopBody
    rw [if_neg (Nat.not_le.mpr h3)]
    exact planPhase_consultedSup input false
  · intro sc input h3 h7 hF hP
    have := loopBody_continues sc input hP (fun _ => h7)
    rw [this, planPhase_consultedSup, planPhase_reachedPlanning]
    simp [h3]
  · intro sc input h3 hP
    unfold loopBody
    rw [if_pos h3, if_pos (by simp [hP])]
  · intro sc input h7 hF hP
    unfold loopBody
    rw [if_pos (by omega), if_neg (by simp [hP]), if_pos (by simp [hF, h7])]

/-- Witness for C9 at concrete step counts and Supervisor responses. -/
theorem c9_witness :
    (loopBody 2 ⟨"FAIL", "Tap x", false⟩).consultedSup = false
    ∧ ((loopBody 5 ⟨"FAIL", "Tap x", false⟩).consultedSup = true
        ∧ (loopBody 5 ⟨"FAIL", "Tap x", false⟩).reachedPlanning = true)
    ∧ (loopBody 4 ⟨"PASS", "Tap x", false⟩).res = BodyRes.ret (some true)
    ∧ (loopBody 9 ⟨"FAIL", "Tap x", false⟩).res = BodyRes.ret (some false) :=
  ⟨c9_verification_gating.2.1 2 _ (by decide),
   c9_verification_gating.2.2.1 5 _ (by decide) (by decide) (by decide) (by decide),
   c9_verification_gating.2.2.2.1 4 _ (by decide) (by decide),
   c9_verification_gating.2.2.2.2 9 _ (by decide) (by decide) (by decide)⟩

/-! ## Claim C3: failed-action eviction vs. recall -/

/-- A memory holding a location both under the exact key "gear" and under
the key "gear icon". -/
def gearPairMem : MemState :=
  ⟨{ element_locations := [("gear", ⟨1, 2, "", ""⟩), ("gear icon", ⟨3, 4, "", ""⟩)] }, none⟩

/-- **C3, counterexample.**  The claim fails as stated: from a memory in which
"gear" has been memorised (here together with a "gear icon" entry), recording
a failed action containing "gear" evicts only the exact keys "gear" and
"settings", while `recall_element_location "gear"` does substring matching and
still returns the "gear icon" location — not none. -/
theorem c3_counterexample :
    recall_element_location
        (remember_failed_action gearPairMem "Tap the gear icon" "ctx" "fail" "t0").data "gear"
      = some (3, 4) := by
  decide

/-- **C3, amended.**  After a failed action whose text contains "gear"
(case-insensitively), the exact "gear" and "settings" location entries are
evicted; and provided "gear"/"settings" were the only stored keys that
substring-match the query "gear" in either direction, a subsequent
`recall_element_location "gear"` returns none. -/
theorem c3_amended (s : MemState) (action context reason now : String)
    (hact : strContains (lowerStr action) "gear" = true)
    (hkeys : ∀ p ∈ s.data.element_locations,
        (strContains p.1 "gear" || strContains "gear" p.1) = true →
        p.1 = "gear" ∨ p.1 = "settings") :
    recall_element_location (remember_failed_action s action context reason now).data "gear" = none
    ∧ dictGet (remember_failed_action s action context reason now).data.element_locations "gear"
        = none
    ∧ dictGet (remember_failed_action s action context reason now).data.element_locations "settings"
        = none := by
  have hcond : (strContains (lowerStr action) "gear"
      || strContains (lowerStr action) "settings") = true := by
    simp [hact]
  have hlocs : (remember_failed_action s action context reason now).data.element_locations
      = dictDel (dictDel s.data.element_locations "gear") "settings" := by
    simp [remember_failed_action, hcond]
  have hmem : ∀ p ∈ dictDel (dictDel s.data.element_locations "gear") "settings",
      p ∈ s.data.element_locations ∧ p.1 ≠ "gear" ∧ p.1 ≠ "settings" := by
    intro p hp
    have h1 := mem_dictDel hp
    have h2 := mem_dictDel h1.1
    exact ⟨h2.1, h2.2, h1.2⟩
  refine ⟨?_, ?_, ?_⟩
  · unfold recall_element_location
    rw [hlocs]
    have hkeyq : stripWs (lowerStr "gear") = "gear" := by decide
    rw [hkeyq]
    refine firstSome_eq_none fun p hp => ?_
    obtain ⟨hpl, hg, hs⟩ := hmem p hp
    have hmatch : (strContains p.1 "gear" || strContains "gear" p.1) = false := by
      by_contra hc
      have : (strContains p.1 "gear" || strContains "gear" p.1) = true := by
        revert hc
        cases strContains p.1 "gear" || strContains "gear" p.1 <;> simp
      rcases hkeys p hpl this with h | h
      · exact hg h
      · exact hs h
    simp only [Bool.or_eq_false_iff] at hmatch
    simp [hmatch.1, hmatch.2]
  · rw [hlocs]
    exact dictGet_eq_none_of_forall fun p hp => (hmem p hp).2.1
  · rw [hlocs]
    exact dictGet_eq_none_of_forall fun p hp => (hmem p hp).2.2

/-- A memory holding only the exact key "gear". -/
def gearOnlyMem : MemState :=
  ⟨{ element_locations := [("gear", ⟨10, 20, "", ""⟩)] }, none⟩

/-- Witness for the amended C3 at a concrete memory and failed action. -/
theorem c3_amended_witness :
    recall_element_location
        (remember_failed_action gearOnlyMem "Tap the gear icon" "c" "r" "t").data "gear" = none
    ∧ dictGet
        ((remember_failed_action gearOnlyMem "Tap the gear icon" "c" "r" "t").data.element_locations)
        "gear" = none
    ∧ dictGet
        ((remember_failed_action gearOnlyMem "Tap the gear icon" "c" "r" "t").data.element_locations)
        "settings" = none :=
  c3_amended gearOnlyMem "Tap the gear icon" "c" "r" "t" (by decide)
    (by intro p hp hm
        simp only [gearOnlyMem, List.mem_singleton] at hp
        subst hp
        left
        rfl)

/-! ## Claim C4: bounded action logs -/

/-- A sequence of log insertions, in either log, in any order. -/
inductive MemOp where
  | succAct (action context now : String)
  | failAct (action context reason now : String)

def applyMemOp (s : MemState) : MemOp → MemState
  | .succAct a c n => remember_successful_action s a c n
  | .failAct a c r n => remember_failed_action s a c r n

def applyMemOps (s : MemState) (ops : List MemOp) : MemState := ops.foldl applyMemOp s

/-- **C4.**  Starting from a memory whose logs satisfy the bounds, after any
number of `remember_failed_action` / `remember_successful_action` calls in
any order, the failure log holds at most 50 entries and the success log at
most 100. -/
theorem c4_bounded_logs (ops : List MemOp) (s : MemState)
    (hf : s.data.failed_actions.length ≤ 50)
    (hs : s.data.successful_actions.length ≤ 100) :
    (applyMemOps s ops).data.failed_actions.length ≤ 50
    ∧ (applyMemOps s ops).data.successful_actions.length ≤ 100 := by
  induction ops generalizing s with
  | nil => exact ⟨hf, hs⟩
  | cons op ops ih =>
    have hstep : (applyMemOp s op).data.failed_actions.length ≤ 50
        ∧ (applyMemOp s op).data.successful_actions.length ≤ 100 := by
      cases op with
      | succAct a c n =>
        refine ⟨?_, takeLast_length_le _ _⟩
        simpa [applyMemOp, remember_successful_action] using hf
      | failAct a c r n =>
        constructor
        · simp only [applyMemOp, remember_failed_action]
          split <;> exact takeLast_length_le _ _
        · simp only [applyMemOp, remember_failed_action]
          split <;> simpa using hs
    have hfold : applyMemOps s (op :: ops) = applyMemOps (applyMemOp s op) ops := rfl
    rw [hfold]
    exact ih (applyMemOp s op) hstep.1 hstep.2

/-- Witness for C4: two insertions from the empty memory. -/
theorem c4_witness :
    ((applyMemOps ⟨emptyMemData, none⟩
        [MemOp.succAct "tap ok" "home" "t1",
          MemOp.failAct "tap gear" "home" "missed" "t2"]).data.failed_actions.length ≤ 50)
    ∧ ((applyMemOps ⟨emptyMemData, none⟩
        [MemOp.succAct "tap ok" "home" "t1",
          MemOp.failAct "tap gear" "home" "missed" "t2"]).data.successful_actions.length ≤ 100) :=
  c4_bounded_logs _ ⟨emptyMemData, none⟩ (by decide) (by decide)

/-! ## Claim C5: pass priority in `find_bounds_by_keywords` -/

/-- **C5.**  For a dump in which the node `nB` is the only node whose stripped
text exactly (case-insensitively) equals any of the two keywords — it matches
keyword `B` — the exact-text pass returns `nB`'s bounds no matter what the
surrounding nodes (for instance one merely containing keyword `A` as a
substring) hold, and no matter that `A` is listed first: the exact-text pass
over the whole keyword list runs before any substring pass. -/
theorem c5_exact_pass_priority (A B : String) (pre post : List UINode) (nB : UINode)
    (b : Int × Int × Int × Int)
    (hothers : ∀ n ∈ pre ++ post, exactTextMatch A n = false ∧ exactTextMatch B n = false)
    (hB : exactTextMatch B nB = true)
    (hbounds : nodeBounds nB = some b) :
    find_bounds_by_keywords (pre ++ nB :: post) [A, B] = some b := by
  have hpreA : ∀ n ∈ pre, (if exactTextMatch A n then nodeBounds n else none) = none := by
    intro n hn
    rw [(hothers n (List.mem_append_left _ hn)).1]
    simp
  have hpostA : ∀ n ∈ post, (if exactTextMatch A n then nodeBounds n else none) = none := by
    intro n hn
    rw [(hothers n (List.mem_append_right _ hn)).1]
    simp
  have hpreB : ∀ n ∈ pre, (if exactTextMatch B n then nodeBounds n else none) = none := by
    intro n hn
    rw [(hothers n (List.mem_append_left _ hn)).2]
    simp
  have hpass1 : firstSome (fun kw =>
      firstSome (fun n => if exactTextMatch kw n then nodeBounds n else none) (pre ++ nB :: post))
      [A, B] = some b := by
    by_cases hAB : exactTextMatch A nB = true
    · have hinnerA : firstSome (fun n => if exactTextMatch A n then nodeBounds n else none)
          (pre ++ nB :: post) = some b := by
        rw [firstSome_append, firstSome_eq_none hpreA]
        simp [firstSome, hAB, hbounds]
      simp [firstSome, hinnerA]
    · have hinnerA : firstSome (fun n => if exactTextMatch A n then nodeBounds n else none)
          (pre ++ nB :: post) = none := by
        rw [firstSome_append, firstSome_eq_none hpreA]
        simp only [firstSome, hAB]
        simp only [Bool.false_eq_true, if_false]
        exact firstSome_eq_none hpostA
      have hinnerB : firstSome (fun n => if exactTextMatch B n then nodeBounds n else none)
          (pre ++ nB :: post) = some b := by
        rw [firstSome_append, firstSome_eq_none hpreB]
        simp [firstSome, hB, hbounds]
      simp [firstSome, hinnerA, hinnerB]
  unfold find_bounds_by_keywords
  rw [hpass1]

/-- The C5 witness dump: a node whose text merely contains the first keyword
`vault` as a substring, followed by the exact match for the second keyword
`Create`. -/
def c5SubstrNode : UINode := { text := some "My vaults list", bounds := some "[0,0][50,50]" }

def c5ExactNode : UINode := { text := some "Create", bounds := some "[10,20][30,40]" }

/-- Witness for C5: with keywords `["vault", "Create"]`, the exact match for
the second keyword wins over the first keyword's substring match. -/
theorem c5_witness :
    find_bounds_by_keywords [c5SubstrNode, c5ExactNode] ["vault", "Create"] = some (10, 20, 30, 40) :=
  c5_exact_pass_priority "vault" "Create" [c5SubstrNode] [] c5ExactNode (10, 20, 30, 40)
    (by intro n hn; simp only [List.append_nil, List.mem_singleton] at hn; subst hn
        exact ⟨by decide, by decide⟩)
    (by decide) (by decide)

/-! ## Claim C6: the bounds format guarantees -/

/-- A node whose bounds string matches the `[x1,y1][x2,y2]` format but with
the x coordinates reversed. -/
def c6ReversedNode : UINode := { text := some "x", bounds := some "[400,200][100,260]" }

/-- **C6, counterexample.**  The parser (and hence every scan using it)
accepts `[400,200][100,260]` and returns the integers as written, violating
x1 ≤ x2: the regex enforces only the format, not the ordering. -/
theorem c6_counterexample :
    find_bounds_by_text [c6ReversedNode] "x" = some (400, 200, 100, 260)
    ∧ parseBounds "[400,200][100,260]" = some (400, 200, 100, 260)
    ∧ ¬ ((400 : Int) ≤ 100) :=
  ⟨by decide, by decide, by decide⟩

/-- **C6, amended.**  Bounds strings matching `[x1,y1][x2,y2]` parse to the
four integers exactly as written, with no guarantee that x1 ≤ x2 or y1 ≤ y2;
a node whose bounds attribute is missing, empty or malformed is silently
skipped and the scan continues with later nodes (the scan is a total
function — no exception aborts it). -/
theorem c6_amended (needle : String) (n1 n2 : UINode) (b : Int × Int × Int × Int)
    (h1 : fbtMatches needle n1 = true) (h1b : nodeBounds n1 = none)
    (h2 : fbtMatches needle n2 = true) (h2b : nodeBounds n2 = some b) :
    find_bounds_by_text [n1, n2] needle = some b := by
  unfold find_bounds_by_text
  simp [firstSome, h1, h1b, h2, h2b]

/-- A node matching the needle whose bounds string is malformed. -/
def c6MalformedNode : UINode := { text := some "Create", bounds := some "[100,200][400" }

/-- A later node matching the needle with well-formed bounds. -/
def c6GoodNode : UINode := { text := some "Create", bounds := some "[100,200][400,260]" }

/-- Witness for the amended C6: the malformed node is skipped, the scan
reaches the later node. -/
theorem c6_amended_witness :
    find_bounds_by_text [c6MalformedNode, c6GoodNode] "Create" = some (100, 200, 400, 260) :=
  c6_amended "Create" c6MalformedNode c6GoodNode (100, 200, 400, 260)
    (by decide) (by decide) (by decide) (by decide)

/-! ## Claim C7: persistence of the mutation methods -/

/-- A memory whose file is in sync with its in-memory data. -/
def syncedEmptyMem : MemState := ⟨emptyMemData, some emptyMemData⟩

/-- **C7, counterexample.**  `set_session_context` mutates the in-memory
session map but writes nothing to the backing file, so after the call the
file no longer holds the current data: not every mutation method persists
before returning. -/
theorem c7_counterexample :
    (set_session_context syncedEmptyMem "pending_gear_location" JVal.jnull).file
      ≠ some (set_session_context syncedEmptyMem "pending_gear_location" JVal.jnull).data := by
  intro h
  have hlen := congrArg (fun o => (Option.map (fun d => d.session_context.length) o).getD 0) h
  simp [set_session_context, syncedEmptyMem, emptyMemData, dictSet, dictHas] at hlen

/-- **C7, amended.**  `remember_element_location`, `remember_successful_action`
and `remember_failed_action` write the backing file before returning;
`forget_element` does so whenever it mutates (and is the identity when the
key is absent); `set_session_context` and `clear_session` mutate only the
in-memory session map and leave the file untouched. -/
theorem c7_amended :
    (∀ (s : MemState) (name : String) (x y : Int) (context now : String),
        (remember_element_location s name x y context now).file
          = some (remember_element_location s name x y context now).data)
    ∧ (∀ (s : MemState) (a c n : String),
        (remember_successful_action s a c n).file = some (remember_successful_action s a c n).data)
    ∧ (∀ (s : MemState) (a c r n : String),
        (remember_failed_action s a c r n).file = some (remember_failed_action s a c r n).data)
    ∧ (∀ (s : MemState) (name : String),
        (dictHas s.data.element_locations (stripWs (lowerStr name)) = true →
          (forget_element s name).file = some (forget_element s name).data)
        ∧ (dictHas s.data.element_locations (stripWs (lowerStr name)) = false →
          forget_element s name = s))
    ∧ (∀ (s : MemState) (k : String) (v : JVal), (set_session_context s k v).file = s.file)
    ∧ (∀ s : MemState, (clear_session s).file = s.file) := by
  refine ⟨fun s name x y context now => rfl, fun s a c n => rfl, fun s a c r n => rfl,
    fun s name => ⟨fun h => ?_, fun h => ?_⟩, fun s k v => rfl, fun s => rfl⟩
  · simp [forget_element, h]
  · simp [forget_element, h]

/-- A memory holding the key "gear", for exercising `forget_element`. -/
def gearForgetMem : MemState := ⟨{ element_locations := [("gear", ⟨10, 20, "", ""⟩)] }, none⟩

/-- Witness for the amended C7 at concrete states. -/
theorem c7_amended_witness :
    (forget_element gearForgetMem "gear").file = some (forget_element gearForgetMem "gear").data
    ∧ (set_session_context syncedEmptyMem "k" JVal.jnull).file = syncedEmptyMem.file :=
  ⟨(c7_amended.2.2.2.1 gearForgetMem "gear").1 (by decide),
    c7_amended.2.2.2.2.1 syncedEmptyMem "k" JVal.jnull⟩

/-! ## Claims C8 and C10: the executor's vision fallback -/

theorem hasActionKey_tapObj (x y : Int) : hasActionKey (tapObj x y) = true := rfl

theorem hasActionKey_typeObj (t : String) : hasActionKey (typeObj t) = true := rfl

theorem hasActionKey_waitObj (s : Rat) : hasActionKey (waitObj s) = true := rfl

theorem hasActionKey_keyObj (k : Rat) : hasActionKey (keyObj k) = true := rfl

theorem hasActionKey_swipeObj (a b c d : Rat) : hasActionKey (swipeObj a b c d) = true := rfl

theorem memoryPath_hasAction {mem : MemData} {sl : String}
    {hint : Option (Int × Int × Int × Int)} {a : JVal}
    (h : memoryPath mem sl hint = some a) : hasActionKey a = true := by
  unfold memoryPath at h
  split at h
  · refine firstSome_prop (P := fun b => hasActionKey b = true) ?_ h
    intro kw b hb
    split at hb
    · cases hr : recall_element_location mem kw with
      | some xy => rw [hr] at hb; cases hb; exact hasActionKey_tapObj _ _
      | none => rw [hr] at hb; exact Option.noConfusion hb
    · exact Option.noConfusion hb
  · exact Option.noConfusion h

theorem keyPath_hasAction {sl : String} {a : JVal} (h : keyPath sl = some a) :
    hasActionKey a = true := by
  unfold keyPath at h
  split at h
  · rename_i heq
    split at heq
    · split at heq
      · cases heq; cases h; exact hasActionKey_keyObj _
      · split at heq
        · cases heq; cases h; exact hasActionKey_keyObj _
        · split at heq
          · cases heq; cases h; exact hasActionKey_keyObj _
          · split at heq
            · cases heq; cases h; exact hasActionKey_keyObj _
            · exact Option.noConfusion heq
    · exact Option.noConfusion heq
  · split at h
    · cases h; exact hasActionKey_keyObj _
    · exact Option.noConfusion h

theorem swipePath_hasAction {screen_size : Int × Int} {sl : String} {a : JVal}
    (h : swipePath screen_size sl = some a) : hasActionKey a = true := by
  unfold swipePath at h
  split at h
  · split at h
    · split at h
      · cases h; exact hasActionKey_swipeObj _ _ _ _
      · cases h; exact hasActionKey_swipeObj _ _ _ _
    · exact Option.noConfusion h
  · exact Option.noConfusion h

theorem hintPath_hasAction {hint : Option (Int × Int × Int × Int)} {sl : String} {a : JVal}
    (h : hintPath hint sl = some a) : hasActionKey a = true := by
  unfold hintPath at h
  split at h
  · split at h
    · cases h; exact hasActionKey_tapObj _ _
    · exact Option.noConfusion h
  · exact Option.noConfusion h

theorem typePath_hasAction {sl sd : String} {a : JVal} (h : typePath sl sd = some a) :
    hasActionKey a = true := by
  unfold typePath at h
  split at h
  · split at h
    · cases h; exact hasActionKey_typeObj _
    · exact Option.noConfusion h
  · exact Option.noConfusion h

theorem visionPath_hasAction (jp : String → Option JVal) (sl sd r : String) :
    hasActionKey (visionPath jp sl sd r) = true := by
  unfold visionPath
  cases hp : jp (cleanResp r) with
  | none =>
    dsimp only
    split
    · split
      · exact hasActionKey_typeObj _
      · exact hasActionKey_waitObj _
    · exact hasActionKey_waitObj _
  | some a0 =>
    dsimp only
    split
    · rename_i ha
      exact ha
    · exact hasActionKey_waitObj _

/-- **C10.**  For every response the vision oracle can return, `execute_step`
yields a dictionary containing an `"action"` key and is total in the
response's shape; on the vision path, a response parsing to a JSON array is
replaced by its first element (or a 1-second wait when the array is empty),
and any parsed value that is not a dictionary containing `"action"` is
replaced by a 1-second wait (a dictionary that does contain it is returned
as is). -/
theorem c10_vision_shape_safety :
    (∀ (mem : MemData) (jsonParse : String → Option JVal) (screen_size : Int × Int)
        (step : String) (hint : Option (Int × Int × Int × Int)) (response : String),
        hasActionKey (execute_step mem jsonParse screen_size step hint response) = true)
    ∧ (∀ (mem : MemData) (jsonParse : String → Option JVal) (screen_size : Int × Int)
        (step : String) (hint : Option (Int × Int × Int × Int)) (response : String) (j : JVal),
        memoryPath mem (lowerStr step) hint = none →
        keyPath (lowerStr step) = none →
        swipePath screen_size (lowerStr step) = none →
        hintPath hint (lowerStr step) = none →
        typePath (lowerStr step) step = none →
        jsonParse (cleanResp response) = some j →
        (j = JVal.jarr [] → execute_step mem jsonParse screen_size step hint response = waitObj 1)
        ∧ (∀ x xs, j = JVal.jarr (x :: xs) →
            execute_step mem jsonParse screen_size step hint response
              = (if hasActionKey x then x else waitObj 1))
        ∧ ((∀ xs, j ≠ JVal.jarr xs) →
            execute_step mem jsonParse screen_size step hint response
              = (if hasActionKey j then j else waitObj 1))) := by
  constructor
  · intro mem jp ss step hint resp
    simp only [execute_step]
    cases hm : memoryPath mem (lowerStr step) hint with
    | some a => exact memoryPath_hasAction hm
    | none =>
    cases hk : keyPath (lowerStr step) with
    | some a => exact keyPath_hasAction hk
    | none =>
    cases hsw : swipePath ss (lowerStr step) with
    | some a => exact swipePath_hasAction hsw
    | none =>
    cases hh : hintPath hint (lowerStr step) with
    | some a => exact hintPath_hasAction hh
    | none =>
    cases ht : typePath (lowerStr step) step with
    | some a => exact typePath_hasAction ht
    | none => exact visionPath_hasAction jp (lowerStr step) step resp
  · intro mem jp ss step hint resp j hm hk hsw hh ht hj
    have hex : execute_step mem jp ss step hint resp = visionPath jp (lowerStr step) step resp := by
      simp only [execute_step]
      rw [hm, hk, hsw, hh, ht]
    refine ⟨?_, ?_, ?_⟩
    · intro hjj
      subst hjj
      rw [hex]
      unfold visionPath
      rw [hj]
      rfl
    · intro x xs hjj
      subst hjj
      rw [hex]
      unfold visionPath
      rw [hj]
    · intro hnotarr
      rw [hex]
      unfold visionPath
      rw [hj]
      cases j with
      | jarr xs => exact absurd rfl (hnotarr xs)
      | jnull => by_cases hx : hasActionKey JVal.jnull = true <;> simp_all
      | jbool b => by_cases hx : hasActionKey (JVal.jbool b) = true <;> simp_all
      | jnum q => by_cases hx : hasActionKey (JVal.jnum q) = true <;> simp_all
      | jstr s => by_cases hx : hasActionKey (JVal.jstr s) = true <;> simp_all
      | jobj fs => by_cases hx : hasActionKey (JVal.jobj fs) = true <;> simp_all

/-- Witness for C10: a response parsing to an empty JSON array yields a
1-second wait, and the result carries an `"action"` key. -/
theorem c10_witness :
    hasActionKey (execute_step emptyMemData (fun _ => some (JVal.jarr []))
        (1080, 2340) "Wait here" none "[]") = true
    ∧ execute_step emptyMemData (fun _ => some (JVal.jarr []))
        (1080, 2340) "Wait here" none "[]" = waitObj 1 :=
  ⟨c10_vision_shape_safety.1 _ _ _ _ _ _,
    (c10_vision_shape_safety.2 emptyMemData (fun _ => some (JVal.jarr [])) (1080, 2340)
      "Wait here" none "[]" (JVal.jarr []) rfl rfl rfl rfl rfl rfl).1 rfl⟩

/-- **C8.**  When the (cleaned) vision response fails to parse as JSON,
`execute_step` never propagates the failure: under the conditions that make
the vision path reachable, a step containing "type" with a quoted substring
yields a Type action with that text (via the either-quote fast path, or via
the single-quote recovery inside the fallback), and otherwise the result is
a 1-second Wait. -/
theorem c8_parse_failure_fallback (mem : MemData) (jsonParse : String → Option JVal)
    (screen_size : Int × Int) (step : String) (hint : Option (Int × Int × Int × Int))
    (response : String)
    (hmem : memoryPath mem (lowerStr step) hint = none)
    (hkey : keyPath (lowerStr step) = none)
    (hswipe : swipePath screen_size (lowerStr step) = none)
    (hhint : hintPath hint (lowerStr step) = none)
    (hparse : jsonParse (cleanResp response) = none) :
    (∀ t ts, strContains (lowerStr step) "type" = true → findallQuotedEither step = t :: ts →
        execute_step mem jsonParse screen_size step hint response = typeObj t)
    ∧ (∀ t ts, strContains (lowerStr step) "type" = true → findallQuotedEither step = [] →
        findallQuotedSingle step = t :: ts →
        execute_step mem jsonParse screen_size step hint response = typeObj t)
    ∧ ((strContains (lowerStr step) "type" = false
        ∨ (findallQuotedEither step = [] ∧ findallQuotedSingle step = [])) →
        execute_step mem jsonParse screen_size step hint response = waitObj 1) := by
  have hex : ∀ tp : Option JVal, typePath (lowerStr step) step = tp →
      execute_step mem jsonParse screen_size step hint response
        = (match tp with
           | some a => a
           | none => visionPath jsonParse (lowerStr step) step response) := by
    intro tp htp
    simp only [execute_step]
    rw [hmem, hkey, hswipe, hhint, htp]
  refine ⟨?_, ?_, ?_⟩
  · intro t ts htype hq
    have htp : typePath (lowerStr step) step = some (typeObj t) := by
      unfold typePath
      rw [if_pos htype, hq]
    exact hex _ htp
  · intro t ts htype hqE hqS
    have htp : typePath (lowerStr step) step = none := by
      unfold typePath
      rw [if_pos htype, hqE]
    rw [hex none htp]
    unfold visionPath
    rw [hparse, hqS]
    simp [htype]
  · intro hcase
    rcases hcase with htype | ⟨hqE, hqS⟩
    · have htp : typePath (lowerStr step) step = none := by
        unfold typePath
        rw [if_neg (by simp [htype])]
      rw [hex none htp]
      unfold visionPath
      rw [hparse]
      simp [htype]
    · have htp : typePath (lowerStr step) step = none := by
        unfold typePath
        by_cases htype : strContains (lowerStr step) "type" = true
        · rw [if_pos htype, hqE]
        · rw [if_neg (by simp [Bool.not_eq_true] at htype; simp [htype])]
      rw [hex none htp]
      unfold visionPath
      rw [hparse, hqS]
      simp

/-- Witness for C8: a step without "type" and an unparseable response yield a
1-second wait. -/
theorem c8_witness :
    execute_step emptyMemData (fun _ => none) (1080, 2340) "Wait for the page" none
        "not a json reply" = waitObj 1 :=
  (c8_parse_failure_fallback emptyMemData (fun _ => none) (1080, 2340) "Wait for the page" none
    "not a json reply" rfl rfl rfl rfl rfl).2.2 (Or.inl (by decide))

end QAgent
